import Mathlib

/-!
Verification development for the DeepSigma policy-execution engine.

The repository ships a single fixture,
`src/adapters/openclaw/examples/custom-policy/reject_low_confidence.rs`,
a policy module compiled to portable bytecode that exports one entry
point `evaluate : () -> i32` whose body returns the constant `1`.
The host-side engine (Module Loader, Context Marshaler, Sandboxed
Executor, Decision Adjudicator, Module Cache) is described only by the
specification; its definitions below are therefore modelled from the
spec, while the fixture module itself is translated from the Rust
source.
-/

/-- Normalize an unbounded integer to the 32-bit signed range, as the
`i32` return type of the ABI demands. -/
def toI32 (n : Int) : Int := ((n + 2 ^ 31) % 2 ^ 32) - 2 ^ 31

/-- Modelled from the spec: the portable bytecode instruction set of
policy modules.  The spec fixes no concrete instruction encoding, so a
minimal stack machine is used: constants, reading the marshalled
confidence from the instance's context cell, returning the stack top,
an unconditional jump (enough to express unbounded loops), linear
memory growth (subject to the memory ceiling), and an explicit trap. -/
inductive Instr where
  | iconst (n : Int)
  | pushConfidence
  | ret
  | jmp (target : Nat)
  | memGrow (bytes : Nat)
  | trapWith (reason : String)
deriving Repr, DecidableEq

/-- Modelled from the spec: one entry of a module's export table — a
symbol name, the arity of the exported function, how many 32-bit
integer results it returns, and its compiled body. -/
structure ExportEntry where
  name : String
  params : Nat
  results : Nat
  body : List Instr
deriving Repr, DecidableEq

/-- Modelled from the spec: a structurally well-formed compiled module —
its declared host imports and its export table. -/
structure PModule where
  imports : List String
  exports : List ExportEntry
deriving Repr, DecidableEq

/-- Modelled from the spec: a raw byte blob handed to the loader.  A
blob either fails structural parsing (malformed bytes) or parses to a
well-formed module; the spec fixes no concrete binary format, so the
two cases are distinguished by constructor. -/
inductive Blob where
  | malformed (bytes : List Nat)
  | wellFormed (m : PModule)
deriving Repr, DecidableEq

/-- Modelled from the spec: load-time failure taxonomy. -/
inductive LoadError where
  | MalformedBinary
  | MissingEntryPoint
  | SignatureMismatch
  | UnsupportedImport
deriving Repr, DecidableEq

/-- Modelled from the spec: in the baseline contract the host provides
no imports; any declared host dependency is unresolved. -/
def supportedImports : List String := []

/-- Modelled from the spec: byte-level encoding of one instruction,
used to give a well-formed module raw bytes for content hashing. -/
def encodeInstr : Instr → List Nat
  | .iconst n => [1, n.natAbs, if n < 0 then 1 else 0]
  | .pushConfidence => [2]
  | .ret => [3]
  | .jmp t => [4, t]
  | .memGrow b => [5, b]
  | .trapWith r => 6 :: r.toList.map Char.toNat

/-- Modelled from the spec: byte-level encoding of one export entry. -/
def encodeExport (e : ExportEntry) : List Nat :=
  (e.name.toList.map Char.toNat) ++ [e.params, e.results] ++
    (e.body.map encodeInstr).flatten

/-- Modelled from the spec: byte-level encoding of a module body. -/
def encodeModule (m : PModule) : List Nat :=
  (m.imports.map (fun s => s.toList.map Char.toNat)).flatten ++
    (m.exports.map encodeExport).flatten

/-- Modelled from the spec: the magic header and version bytes a
well-formed binary begins with. -/
def magicHeader : List Nat := [0, 97, 115, 109, 1, 0, 0, 0]

/-- Modelled from the spec: the raw bytes of a blob. -/
def blobBytes : Blob → List Nat
  | .malformed bs => bs
  | .wellFormed m => magicHeader ++ encodeModule m

/-- Modelled from the spec: a deterministic content hash computed over
raw bytes, reduced into a 64-bit value. -/
def contentHash (bs : List Nat) : Nat :=
  bs.foldl (fun h b => (h * 131 + b + 1) % 2 ^ 64) 5381

/-- Modelled from the spec: structural validation of a parsed module —
all declared imports must be host-supported, an export named
`evaluate` must exist, and its signature must be zero parameters and
one 32-bit integer result. -/
def validateModule (m : PModule) : Except LoadError ExportEntry :=
  if m.imports.any (fun i => !(supportedImports.contains i)) then
    .error .UnsupportedImport
  else
    match m.exports.find? (fun e => e.name == "evaluate") with
    | none => .error .MissingEntryPoint
    | some e =>
        if e.params == 0 && e.results == 1 then .ok e
        else .error .SignatureMismatch

/-- Modelled from the spec: an immutable, validated, content-addressed
unit of compiled policy code.  The `validated` field makes it
impossible to construct a `PolicyModule` whose full validation has not
succeeded. -/
structure PolicyModule where
  mod : PModule
  entry : ExportEntry
  hash : Nat
  validated : validateModule mod = .ok entry

/-- Modelled from the spec: `load(bytes) -> Result<PolicyModule, LoadError>`.
Parsing failure yields `MalformedBinary`; otherwise structural
validation runs and, on success, the content hash over the raw bytes
becomes the module's identity.  No module code is executed. -/
def load (b : Blob) : Except LoadError PolicyModule :=
  match b with
  | .malformed _ => .error .MalformedBinary
  | .wellFormed m =>
      match h : validateModule m with
      | .error e => .error e
      | .ok entry =>
          .ok ⟨m, entry, contentHash (blobBytes (.wellFormed m)), h⟩

/-- Modelled from the spec: per-invocation input data.  The spec's
confidence value in [0,1] is represented in fixed point as a
per-mille integer to keep the model free of floating point. -/
structure EvaluationContext where
  confidencePerMille : Nat
  extensions : List (String × String)
deriving Repr, DecidableEq

/-- Modelled from the spec: per-invocation execution limits.  The
wall-clock timeout is carried as configuration; real time itself is
outside the model, so only the deterministic step and memory budgets
act in the semantics. -/
structure ExecutionLimits where
  max_steps : Nat
  max_memory_bytes : Nat
  timeout_millis : Nat
deriving Repr, DecidableEq

/-- Modelled from the spec: execution-fault taxonomy. -/
inductive ExecutionFault where
  | StepLimitExceeded
  | MemoryLimitExceeded
  | Timeout
  | Trapped (reason : String)
  | Cancelled
deriving Repr, DecidableEq

/-- Modelled from the spec: the Context Marshaler's encoding of the
evaluation context into the single context cell the instance can
read. -/
def marshal (ctx : EvaluationContext) : Int := Int.ofNat ctx.confidencePerMille

/-- Modelled from the spec: the mutable state of one fresh, isolated
execution instance — program counter, value stack, current linear
memory size, and the marshalled context cell. -/
structure ExecState where
  pc : Nat
  stack : List Int
  memBytes : Nat
  ctxCell : Int
deriving Repr, DecidableEq

/-- Result of one machine step. -/
inductive StepOut where
  | next (s : ExecState)
  | done (v : Int)
  | fault (f : ExecutionFault)
deriving Repr, DecidableEq

/-- Modelled from the spec: one deterministic machine step of the
sandboxed executor.  Memory growth past the ceiling faults the
instance with `MemoryLimitExceeded`; running off the end of the body
or returning with an empty stack is a trap. -/
def step (body : List Instr) (limits : ExecutionLimits) (s : ExecState) : StepOut :=
  match body.get? s.pc with
  | none => .fault (.Trapped "end of function body without return")
  | some i =>
      match i with
      | .iconst n => .next { s with pc := s.pc + 1, stack := toI32 n :: s.stack }
      | .pushConfidence => .next { s with pc := s.pc + 1, stack := s.ctxCell :: s.stack }
      | .ret =>
          match s.stack with
          | v :: _ => .done (toI32 v)
          | [] => .fault (.Trapped "return with empty value stack")
      | .jmp t => .next { s with pc := t }
      | .memGrow bytes =>
          if s.memBytes + bytes ≤ limits.max_memory_bytes then
            .next { s with pc := s.pc + 1, memBytes := s.memBytes + bytes }
          else .fault .MemoryLimitExceeded
      | .trapWith r => .fault (.Trapped r)

/-- Outcome of running the machine under a step budget. -/
inductive RunResult where
  | finished (v : Int)
  | faulted (f : ExecutionFault)
  | outOfSteps (s : ExecState)
deriving Repr, DecidableEq

/-- Modelled from the spec: fuelled execution — each consumed unit of
fuel is one counted step, so the interpreter itself terminates after
at most the given number of steps regardless of the module's logic. -/
def runFuel (body : List Instr) (limits : ExecutionLimits) :
    Nat → ExecState → RunResult
  | 0, s => .outOfSteps s
  | fuel + 1, s =>
      match step body limits s with
      | .next s' => runFuel body limits fuel s'
      | .done v => .finished v
      | .fault f => .faulted f

/-- Modelled from the spec: the initial state of a fresh instance —
program counter at the entry, empty stack, no memory grown yet, and
the marshalled context written into the context cell. -/
def initState (ctx : EvaluationContext) : ExecState :=
  { pc := 0, stack := [], memBytes := 0, ctxCell := marshal ctx }

/-- Modelled from the spec:
`execute(module, ctx, limits) -> Result<i32, ExecutionFault>`.
A fresh isolated instance runs the validated `evaluate` entry under
the step budget; exhausting the budget before completion or fault
yields `StepLimitExceeded` deterministically. -/
def execute (pm : PolicyModule) (ctx : EvaluationContext)
    (limits : ExecutionLimits) : Except ExecutionFault Int :=
  match runFuel pm.entry.body limits limits.max_steps (initState ctx) with
  | .finished v => .ok v
  | .faulted f => .error f
  | .outOfSteps _ => .error .StepLimitExceeded

/-- Modelled from the spec: diagnostic classification carried by an
`Error` decision, one kind per execution fault, preserving the trap
reason. -/
inductive ErrorKind where
  | StepLimit
  | MemoryLimit
  | TimedOut
  | Trap (reason : String)
  | Cancel
deriving Repr, DecidableEq

/-- Modelled from the spec: the fault reason carried into the
diagnostic classification. -/
def toErrorKind : ExecutionFault → ErrorKind
  | .StepLimitExceeded => .StepLimit
  | .MemoryLimitExceeded => .MemoryLimit
  | .Timeout => .TimedOut
  | .Trapped r => .Trap r
  | .Cancelled => .Cancel

/-- Modelled from the spec: the adjudicated result — exactly one of
Allow, Reject, or Error with a diagnostic kind. -/
inductive Decision where
  | Allow
  | Reject
  | Error (k : ErrorKind)
deriving Repr, DecidableEq

/-- Modelled from the spec:
`adjudicate(outcome: Result<i32, ExecutionFault>) -> Decision`.
Raw integer 0 maps to Reject, any nonzero integer to Allow, and every
execution fault to an Error decision preserving the fault reason.
It is a plain function of its argument: no state, no effects. -/
def adjudicate : Except ExecutionFault Int → Decision
  | .ok v => if v = 0 then .Reject else .Allow
  | .error f => .Error (toErrorKind f)

/-- Modelled from the spec: engine events recorded along the pipeline,
used to state temporal invariants — a module's validation succeeding,
an execution instance being created, and the entry point being
invoked, each tagged with the module's content hash. -/
inductive EngineEvent where
  | validated (hash : Nat)
  | instantiated (hash : Nat)
  | invoked (hash : Nat)
deriving Repr, DecidableEq

/-- Modelled from the spec: the caller-facing pipeline
Loader → Executor → Adjudicator, instrumented with the engine events
it performs in order.  A load failure is surfaced before any execution
attempt, so it contributes no instantiation or invocation event. -/
def evaluatePolicyTraced (b : Blob) (ctx : EvaluationContext)
    (limits : ExecutionLimits) :
    Except LoadError Decision × List EngineEvent :=
  match load b with
  | .error e => (.error e, [])
  | .ok pm =>
      (.ok (adjudicate (execute pm ctx limits)),
       [.validated pm.hash, .instantiated pm.hash, .invoked pm.hash])

/-- Modelled from the spec:
`evaluate_policy(module_bytes, context, limits) -> Decision` — the
single external entry point. -/
def evaluate_policy (b : Blob) (ctx : EvaluationContext)
    (limits : ExecutionLimits) : Except LoadError Decision :=
  (evaluatePolicyTraced b ctx limits).1

/-- Number of execution instances the pipeline creates for a given
invocation, read off the event trace. -/
def instancesCreated (b : Blob) (ctx : EvaluationContext)
    (limits : ExecutionLimits) : Nat :=
  ((evaluatePolicyTraced b ctx limits).2.filter
    (fun e => match e with | .instantiated _ => true | _ => false)).length

/-- Modelled from the spec: the loader instrumented with its events —
it validates but never instantiates nor invokes. -/
def loadTraced (b : Blob) :
    Except LoadError PolicyModule × List EngineEvent :=
  (load b,
   match load b with
   | .error _ => []
   | .ok pm => [.validated pm.hash])

/-- Whether a blob carries a conforming `evaluate` export: it parses,
and its export table holds an entry named `evaluate` of the expected
zero-parameter, one-result signature. -/
def blobHasValidEvaluateExport : Blob → Bool
  | .malformed _ => false
  | .wellFormed m =>
      match m.exports.find? (fun e => e.name == "evaluate") with
      | none => false
      | some e => e.params == 0 && e.results == 1

/-- Modelled from the spec: `true` when running the module under the
given limits reaches neither normal completion nor a fault within the
step budget — the execution would require more than `max_steps`
steps. -/
def exceedsStepBudget (pm : PolicyModule) (ctx : EvaluationContext)
    (limits : ExecutionLimits) : Bool :=
  match runFuel pm.entry.body limits limits.max_steps (initState ctx) with
  | .outOfSteps _ => true
  | _ => false

/-- Translated from the source
(`reject_low_confidence.rs`, fn `evaluate`): the compiled body of the
fixture's sole export — it returns the constant `1` and reads no
context. -/
def rejectLowConfidenceBody : List Instr := [.iconst 1, .ret]

/-- Translated from the source: the fixture's single `#[no_mangle]`
export, named `evaluate`, with zero parameters and one `i32` result. -/
def rejectLowConfidenceEntry : ExportEntry :=
  { name := "evaluate", params := 0, results := 1,
    body := rejectLowConfidenceBody }

/-- Translated from the source: the compiled fixture module — no host
imports, and exactly the one export the Rust file marks
`#[no_mangle] pub extern "C"`. -/
def rejectLowConfidenceModule : PModule :=
  { imports := [], exports := [rejectLowConfidenceEntry] }

/-- The fixture as a raw blob handed to the loader. -/
def rejectLowConfidenceBlob : Blob := .wellFormed rejectLowConfidenceModule

/-- The fixture as a validated policy module. -/
def rejectLowConfidencePM : PolicyModule :=
  { mod := rejectLowConfidenceModule,
    entry := rejectLowConfidenceEntry,
    hash := contentHash (blobBytes rejectLowConfidenceBlob),
    validated := by rfl }

/-- A module whose `evaluate` body is an unbounded loop, used to state
non-termination containment. -/
def loopBody : List Instr := [.jmp 0]

/-- Export entry of the looping module. -/
def loopEntry : ExportEntry :=
  { name := "evaluate", params := 0, results := 1, body := loopBody }

/-- The looping module. -/
def loopModule : PModule := { imports := [], exports := [loopEntry] }

/-- The looping module as a raw blob. -/
def loopBlob : Blob := .wellFormed loopModule

/-- The looping module as a validated policy module. -/
def loopPM : PolicyModule :=
  { mod := loopModule,
    entry := loopEntry,
    hash := contentHash (blobBytes loopBlob),
    validated := by rfl }

/-- Modelled from the spec: host-process state outside the sandbox.
The sandbox has no ambient access to any of it. -/
structure HostState where
  files : List (String × String)
  env : List (String × String)
  hostMemBytes : Nat
deriving Repr, DecidableEq

/-- Modelled from the spec: the pipeline as observed from the host —
it returns a typed result and the host state it leaves behind.  All
failure recovery happens inside; the instance state lives and dies
within `execute`. -/
def evaluatePolicyHost (s : HostState) (b : Blob) (ctx : EvaluationContext)
    (limits : ExecutionLimits) : Except LoadError Decision × HostState :=
  (evaluate_policy b ctx limits, s)

/-- Modelled from the spec: the Module Cache — content-hash-keyed
entries plus a count of underlying loads performed, the observable
cost the single-flight guarantee bounds. -/
structure CacheState where
  entries : List (Nat × Except LoadError PolicyModule)
  loadsPerformed : Nat

/-- Cache lookup by content hash. -/
def CacheState.lookup (st : CacheState) (h : Nat) :
    Option (Except LoadError PolicyModule) :=
  (st.entries.find? (fun p => p.1 == h)).map (fun p => p.2)

/-- Modelled from the spec: `get_or_load(hash, loader_fn)`.  The
per-key single-flight coordination makes each call an atomic critical
section for its hash: a hit returns the cached result and performs no
load; a miss performs the one load, stores its result (module or
failure) and hands the same result to every later caller. -/
def get_or_load (st : CacheState) (h : Nat)
    (loader : Except LoadError PolicyModule) :
    Except LoadError PolicyModule × CacheState :=
  match st.lookup h with
  | some r => (r, st)
  | none =>
      (loader, { entries := (h, loader) :: st.entries,
                 loadsPerformed := st.loadsPerformed + 1 })

/-- Modelled from the spec: a group of concurrent callers of
`get_or_load` for the same hash.  The per-key coordination serializes
their critical sections, so any concurrent execution is one of these
sequential runs; the count is the number of callers. -/
def runCallers (h : Nat) (loader : Except LoadError PolicyModule) :
    Nat → CacheState → List (Except LoadError PolicyModule) × CacheState
  | 0, st => ([], st)
  | n + 1, st =>
      let p := get_or_load st h loader
      let q := runCallers h loader n p.2
      (p.1 :: q.1, q.2)

/-- A structural validation failure is surfaced by `load` unchanged. -/
theorem load_validate_error (m : PModule) (e : LoadError)
    (hv : validateModule m = .error e) :
    load (.wellFormed m) = .error e := by
  simp only [load]
  split
  next e' heq => rw [hv] at heq; injection heq with h2; rw [h2]
  next entry heq => rw [hv] at heq; exact absurd heq (by simp)

/-- Whatever `load` accepts came from a well-formed blob, passed full
validation, and is content-addressed by the blob's raw bytes. -/
theorem load_ok_inv (b : Blob) (pm : PolicyModule)
    (h : load b = .ok pm) :
    b = .wellFormed pm.mod ∧ validateModule pm.mod = .ok pm.entry ∧
      pm.hash = contentHash (blobBytes b) := by
  rcases b with bs | m
  · exact absurd h (by simp [load])
  · simp only [load] at h
    split at h
    next e heq => exact absurd h (by simp)
    next entry heq =>
      injection h with h2
      subst h2
      exact ⟨rfl, heq, rfl⟩

/-- With fewer than two steps of budget the fixture cannot reach its
return, so the step limit fires. -/
theorem execute_rlc_small (ctx : EvaluationContext) (limits : ExecutionLimits)
    (h : limits.max_steps < 2) :
    execute rejectLowConfidencePM ctx limits = .error .StepLimitExceeded := by
  rcases limits with ⟨L, mem, t⟩
  rcases L with _ | L
  · rfl
  rcases L with _ | L
  · rfl
  · exact absurd (show L + 1 + 1 < 2 from h) (by omega)

/-- With at least two steps of budget the fixture's `evaluate` runs to
completion and returns `1`. -/
theorem execute_rlc_ok (ctx : EvaluationContext) (limits : ExecutionLimits)
    (h : 2 ≤ limits.max_steps) :
    execute rejectLowConfidencePM ctx limits = .ok 1 := by
  rcases limits with ⟨L, mem, t⟩
  rcases L with _ | L
  · exact absurd (show 2 ≤ 0 from h) (by omega)
  rcases L with _ | L
  · exact absurd (show 2 ≤ 1 from h) (by omega)
  · rfl

/-- The fixture reads no context: its execution result is the same for
every evaluation context. -/
theorem execute_rlc_ctx_independent (ctx ctx' : EvaluationContext)
    (limits : ExecutionLimits) :
    execute rejectLowConfidencePM ctx limits =
      execute rejectLowConfidencePM ctx' limits := by
  by_cases h : limits.max_steps < 2
  · rw [execute_rlc_small ctx limits h, execute_rlc_small ctx' limits h]
  · push_neg at h
    rw [execute_rlc_ok ctx limits h, execute_rlc_ok ctx' limits h]

/-- Loading the fixture blob succeeds with the fixture module. -/
theorem load_rlc : load rejectLowConfidenceBlob = .ok rejectLowConfidencePM := rfl

/-- Loading the looping blob succeeds with the looping module. -/
theorem load_loop : load loopBlob = .ok loopPM := rfl

/-- The looping body never completes nor faults: any step budget runs
out. -/
theorem runFuel_loop (limits : ExecutionLimits) :
    ∀ (fuel : Nat) (s : ExecState), s.pc = 0 →
      ∃ s', runFuel loopBody limits fuel s = .outOfSteps s'
  | 0, s, _ => ⟨s, rfl⟩
  | fuel + 1, s, hpc => by
      have hstep : step loopBody limits s = .next { s with pc := 0 } := by
        simp [step, loopBody, hpc]
      rw [runFuel, hstep]
      exact runFuel_loop limits fuel { s with pc := 0 } rfl

/-- Executing the looping module is contained by the step budget under
every limit configuration. -/
theorem execute_loop (ctx : EvaluationContext) (limits : ExecutionLimits) :
    execute loopPM ctx limits = .error .StepLimitExceeded := by
  obtain ⟨s', hs⟩ := runFuel_loop limits limits.max_steps (initState ctx) rfl
  have hb : loopPM.entry.body = loopBody := rfl
  unfold execute
  rw [hb, hs]

/-- On a successful load the pipeline adjudicates the execution of the
loaded module. -/
theorem evaluate_policy_of_load_ok (b : Blob) (pm : PolicyModule)
    (h : load b = .ok pm) (ctx : EvaluationContext) (limits : ExecutionLimits) :
    evaluate_policy b ctx limits = .ok (adjudicate (execute pm ctx limits)) := by
  simp [evaluate_policy, evaluatePolicyTraced, h]

/-- A load failure is surfaced by the pipeline before any execution. -/
theorem evaluate_policy_of_load_error (b : Blob) (e : LoadError)
    (h : load b = .error e) (ctx : EvaluationContext) (limits : ExecutionLimits) :
    evaluate_policy b ctx limits = .error e := by
  simp [evaluate_policy, evaluatePolicyTraced, h]

/-- A cache insert is immediately visible to lookups of its hash. -/
theorem lookup_insert (es : List (Nat × Except LoadError PolicyModule))
    (n h : Nat) (r : Except LoadError PolicyModule) :
    CacheState.lookup ⟨(h, r) :: es, n⟩ h = some r := by
  simp [CacheState.lookup, List.find?]

/-- Once a hash is cached, any further group of callers performs no
load and all of them receive the cached result. -/
theorem runCallers_cached (h : Nat) (loader r : Except LoadError PolicyModule) :
    ∀ (n : Nat) (st : CacheState), st.lookup h = some r →
      runCallers h loader n st = (List.replicate n r, st)
  | 0, st, _ => by simp [runCallers]
  | n + 1, st, hhit => by
      have hg : get_or_load st h loader = (r, st) := by
        simp [get_or_load, hhit]
      simp only [runCallers, hg]
      rw [runCallers_cached h loader r n st hhit]
      simp [List.replicate]

/-- C1: for the fixture policy module `reject_low_confidence`, every
invocation of its exported entry point `evaluate` returns the integer
1, and for every evaluation context and all sufficiently generous step
limits, `evaluate_policy` on this fixture yields `Decision.Allow`. -/
theorem c1_fixture_constant_one_allows (ctx : EvaluationContext)
    (limits : ExecutionLimits) (h : 2 ≤ limits.max_steps) :
    execute rejectLowConfidencePM ctx limits = .ok 1 ∧
      evaluate_policy rejectLowConfidenceBlob ctx limits = .ok .Allow := by
  refine ⟨execute_rlc_ok ctx limits h, ?_⟩
  rw [evaluate_policy_of_load_ok rejectLowConfidenceBlob rejectLowConfidencePM
    load_rlc ctx limits, execute_rlc_ok ctx limits h]
  rfl

/-- Witness for C1 at a concrete context and concrete generous limits. -/
theorem c1_witness :
    2 ≤ (ExecutionLimits.mk 10 64 1000).max_steps ∧
      evaluate_policy rejectLowConfidenceBlob ⟨250, []⟩ ⟨10, 64, 1000⟩ =
        .ok .Allow :=
  ⟨by decide,
   (c1_fixture_constant_one_allows ⟨250, []⟩ ⟨10, 64, 1000⟩ (by decide)).2⟩

/-- C2: the Decision Adjudicator maps a successful raw integer result 0
to `Decision.Reject` and every nonzero integer (not only 1) to
`Decision.Allow`; as a plain function of its argument it has no side
effects. -/
theorem c2_adjudicate_zero_reject_nonzero_allow :
    adjudicate (Except.ok 0) = Decision.Reject ∧
      ∀ n : Int, n ≠ 0 → adjudicate (Except.ok n) = Decision.Allow := by
  refine ⟨rfl, ?_⟩
  intro n hn
  simp [adjudicate, hn]

/-- Witness for C2 at the concrete nonzero results 7 and -3. -/
theorem c2_witness :
    adjudicate (Except.ok 0) = Decision.Reject ∧
      adjudicate (Except.ok 7) = Decision.Allow ∧
      adjudicate (Except.ok (-3)) = Decision.Allow :=
  ⟨c2_adjudicate_zero_reject_nonzero_allow.1,
   c2_adjudicate_zero_reject_nonzero_allow.2 7 (by decide),
   c2_adjudicate_zero_reject_nonzero_allow.2 (-3) (by decide)⟩

/-- C3: the fixture module conforms to the baseline ABI contract — it
exports exactly the one entry-point symbol `evaluate`, with zero
parameters and one 32-bit integer result, and under the zero-argument
calling convention it reads no supplied context: its execution result
is identical for all evaluation contexts. -/
theorem c3_fixture_abi_conformance :
    rejectLowConfidenceModule.exports = [rejectLowConfidenceEntry] ∧
      rejectLowConfidenceEntry.name = "evaluate" ∧
      rejectLowConfidenceEntry.params = 0 ∧
      rejectLowConfidenceEntry.results = 1 ∧
      blobHasValidEvaluateExport rejectLowConfidenceBlob = true ∧
      ∀ (ctx ctx' : EvaluationContext) (limits : ExecutionLimits),
        execute rejectLowConfidencePM ctx limits =
          execute rejectLowConfidencePM ctx' limits :=
  ⟨rfl, rfl, rfl, rfl, rfl, execute_rlc_ctx_independent⟩

/-- C4: the fixture's `evaluate` never returns 0, so under the
adjudication rule the fixture can never produce `Decision.Reject`, and
its result is independent of any confidence value carried by the
context — despite its header comment documenting confidence below 0.5
as a reject case. -/
theorem c4_fixture_never_rejects (ctx : EvaluationContext)
    (limits : ExecutionLimits) :
    (∀ v : Int, execute rejectLowConfidencePM ctx limits = .ok v → v ≠ 0) ∧
      adjudicate (execute rejectLowConfidencePM ctx limits) ≠ Decision.Reject ∧
      ∀ ctx' : EvaluationContext,
        execute rejectLowConfidencePM ctx limits =
          execute rejectLowConfidencePM ctx' limits := by
  by_cases h : limits.max_steps < 2
  · refine ⟨?_, ?_, fun ctx' => execute_rlc_ctx_independent ctx ctx' limits⟩
    · intro v hv
      rw [execute_rlc_small ctx limits h] at hv
      exact absurd hv (by simp)
    · rw [execute_rlc_small ctx limits h]
      simp [adjudicate]
  · push_neg at h
    refine ⟨?_, ?_, fun ctx' => execute_rlc_ctx_independent ctx ctx' limits⟩
    · intro v hv
      rw [execute_rlc_ok ctx limits h] at hv
      injection hv with h2
      rw [← h2]
      decide
    · rw [execute_rlc_ok ctx limits h]
      simp [adjudicate]

/-- Witness for C4 at a concrete low-confidence context (200 per
mille, i.e. 0.2 < 0.5) and concrete limits. -/
theorem c4_witness :
    adjudicate (execute rejectLowConfidencePM ⟨200, []⟩ ⟨10, 64, 1000⟩) ≠
      Decision.Reject :=
  (c4_fixture_never_rejects ⟨200, []⟩ ⟨10, 64, 1000⟩).2.1

/-- C5 counterexample: the empty byte blob fails structural parsing,
so it certainly lacks a valid `evaluate` export, yet `load` returns
`MalformedBinary` rather than `MissingEntryPoint` — the claim's
universal statement over all byte blobs is false. -/
theorem c5_counterexample :
    blobHasValidEvaluateExport (Blob.malformed []) = false ∧
      load (Blob.malformed []) = .error .MalformedBinary ∧
      load (Blob.malformed []) ≠ .error .MissingEntryPoint := by
  refine ⟨rfl, rfl, ?_⟩
  intro h
  injection h with h2
  exact absurd h2 (by decide)

/-- C5 (amended): for every structurally well-formed byte blob whose
declared imports are host-supported and whose export table has no
entry named `evaluate`, `load` returns `LoadError.MissingEntryPoint`;
and from any blob on which `load` fails, no execution instance is ever
created. -/
theorem c5_missing_entry_point (m : PModule) (ctx : EvaluationContext)
    (limits : ExecutionLimits)
    (himp : m.imports.any (fun i => !(supportedImports.contains i)) = false)
    (hex : m.exports.find? (fun e => e.name == "evaluate") = none) :
    load (.wellFormed m) = .error .MissingEntryPoint ∧
      instancesCreated (.wellFormed m) ctx limits = 0 ∧
      ∀ (b : Blob) (e : LoadError), load b = .error e →
        instancesCreated b ctx limits = 0 := by
  have hnoinst : ∀ (b : Blob) (e : LoadError), load b = .error e →
      instancesCreated b ctx limits = 0 := by
    intro b e hb
    simp [instancesCreated, evaluatePolicyTraced, hb]
  have hv : validateModule m = .error .MissingEntryPoint := by
    simp only [validateModule, himp, Bool.false_eq_true, if_false, hex]
  have hl : load (.wellFormed m) = .error .MissingEntryPoint :=
    load_validate_error m .MissingEntryPoint hv
  exact ⟨hl, hnoinst (.wellFormed m) .MissingEntryPoint hl, hnoinst⟩

/-- Witness for C5 (amended) at the concrete empty module, which is
well-formed, imports nothing, and exports nothing. -/
theorem c5_witness :
    load (.wellFormed ⟨[], []⟩) = .error .MissingEntryPoint ∧
      instancesCreated (.wellFormed ⟨[], []⟩) ⟨100, []⟩ ⟨5, 0, 0⟩ = 0 ∧
      ∀ (b : Blob) (e : LoadError), load b = .error e →
        instancesCreated b ⟨100, []⟩ ⟨5, 0, 0⟩ = 0 :=
  c5_missing_entry_point ⟨[], []⟩ ⟨100, []⟩ ⟨5, 0, 0⟩ rfl rfl

/-- C6: for every validated module, every evaluation context and every
limit configuration, if the execution would require more than
`max_steps` steps (it reaches neither completion nor a fault within
the budget), the executor stops it deterministically with
`ExecutionFault.StepLimitExceeded` — regardless of the module's
internal logic.  The interpreter consumes one unit of fuel per step,
so the host-side work is itself bounded by the budget. -/
theorem c6_step_limit_containment (pm : PolicyModule)
    (ctx : EvaluationContext) (limits : ExecutionLimits)
    (h : exceedsStepBudget pm ctx limits = true) :
    execute pm ctx limits = .error .StepLimitExceeded := by
  rcases hr : runFuel pm.entry.body limits limits.max_steps (initState ctx)
    with v | f | s
  · rw [exceedsStepBudget, hr] at h
    exact absurd h (by simp)
  · rw [exceedsStepBudget, hr] at h
    exact absurd h (by simp)
  · unfold execute
    rw [hr]

/-- Witness for C6: the unbounded-loop module under a budget of five
steps exceeds the budget and is stopped with `StepLimitExceeded`. -/
theorem c6_witness :
    exceedsStepBudget loopPM ⟨500, []⟩ ⟨5, 0, 0⟩ = true ∧
      execute loopPM ⟨500, []⟩ ⟨5, 0, 0⟩ = .error .StepLimitExceeded :=
  ⟨rfl, c6_step_limit_containment loopPM ⟨500, []⟩ ⟨5, 0, 0⟩ rfl⟩

/-- C7: `adjudicate` maps every `ExecutionFault` variant (step limit,
memory limit, timeout, trap, cancelled) to `Decision.Error` with a
kind that preserves the fault reason (the kind map is injective), and
every adjudicated outcome is exactly one of the three variants Allow,
Reject or Error. -/
theorem c7_adjudicate_faults_and_totality :
    (∀ f : ExecutionFault, adjudicate (.error f) = .Error (toErrorKind f)) ∧
      (∀ f g : ExecutionFault, toErrorKind f = toErrorKind g → f = g) ∧
      ∀ r : Except ExecutionFault Int,
        adjudicate r = .Allow ∨ adjudicate r = .Reject ∨
          ∃ k, adjudicate r = .Error k := by
  refine ⟨fun f => rfl, ?_, ?_⟩
  · intro f g h
    cases f <;> cases g <;> simp_all [toErrorKind]
  · intro r
    rcases r with f | v
    · right; right; exact ⟨toErrorKind f, rfl⟩
    · by_cases hv : v = 0
      · right; left; simp [adjudicate, hv]
      · left; simp [adjudicate, hv]

/-- Witness for C7 at concrete faults and a concrete raw result. -/
theorem c7_witness :
    adjudicate (.error (.Trapped "oob")) = .Error (.Trap "oob") ∧
      ExecutionFault.Cancelled = ExecutionFault.Cancelled ∧
      (adjudicate (.ok 5) = .Allow ∨ adjudicate (.ok 5) = .Reject ∨
        ∃ k, adjudicate (.ok 5) = .Error k) :=
  ⟨c7_adjudicate_faults_and_totality.1 (.Trapped "oob"),
   c7_adjudicate_faults_and_totality.2.1 .Cancelled .Cancelled rfl,
   c7_adjudicate_faults_and_totality.2.2 (.ok 5)⟩

/-- C8: in every reachable state of the engine no policy module is
executed before its full validation has succeeded — every
`PolicyModule` value carries a successful validation, the loader's
event trace contains nothing but validation (it never instantiates or
invokes module code), and whenever the pipeline's trace is nonempty
its validation event precedes instantiation and invocation of the
same, successfully loaded, module. -/
theorem c8_validation_precedes_execution (b : Blob)
    (ctx : EvaluationContext) (limits : ExecutionLimits) :
    (∀ pm : PolicyModule, validateModule pm.mod = .ok pm.entry) ∧
      ((loadTraced b).2.filter
        (fun e => match e with | .validated _ => false | _ => true) = []) ∧
      ((evaluatePolicyTraced b ctx limits).2 = [] ∨
        ∃ pm, load b = .ok pm ∧ validateModule pm.mod = .ok pm.entry ∧
          (evaluatePolicyTraced b ctx limits).2 =
            [.validated pm.hash, .instantiated pm.hash, .invoked pm.hash]) := by
  refine ⟨fun pm => pm.validated, ?_, ?_⟩
  · rcases h : load b with e | pm
    · simp [loadTraced, h]
    · simp [loadTraced, h, List.filter]
  · rcases h : load b with e | pm
    · left; simp [evaluatePolicyTraced, h]
    · right
      exact ⟨pm, rfl, pm.validated, by simp [evaluatePolicyTraced, h]⟩

/-- C9: no fault arising inside a sandboxed module escapes the engine
boundary — for every host state, blob, context and limits the pipeline
returns a typed decision or a typed load error and leaves the host
state untouched; in particular even a module that loops forever is
recovered into the typed decision `Error StepLimit` under every limit
configuration. -/
theorem c9_fault_containment (s : HostState) (b : Blob)
    (ctx : EvaluationContext) (limits : ExecutionLimits) :
    (evaluatePolicyHost s b ctx limits).2 = s ∧
      (∀ d : Decision, (evaluatePolicyHost s b ctx limits).1 = .ok d →
        d = .Allow ∨ d = .Reject ∨ ∃ k, d = .Error k) ∧
      (evaluatePolicyHost s loopBlob ctx limits).1 =
        .ok (.Error .StepLimit) := by
  refine ⟨rfl, ?_, ?_⟩
  · intro d _
    rcases d with _ | _ | k
    · exact Or.inl rfl
    · exact Or.inr (Or.inl rfl)
    · exact Or.inr (Or.inr ⟨k, rfl⟩)
  · show evaluate_policy loopBlob ctx limits = .ok (.Error .StepLimit)
    rw [evaluate_policy_of_load_ok loopBlob loopPM load_loop ctx limits,
      execute_loop ctx limits]
    rfl

/-- Witness for C9 at a concrete host state, the fixture blob, and
concrete limits: the host state is preserved and the adjudicated
decision is one of the three typed variants. -/
theorem c9_witness :
    (evaluatePolicyHost ⟨[("a", "b")], [("K", "V")], 7⟩
        rejectLowConfidenceBlob ⟨700, []⟩ ⟨10, 64, 1000⟩).2 =
      ⟨[("a", "b")], [("K", "V")], 7⟩ ∧
      (Decision.Allow = .Allow ∨ Decision.Allow = .Reject ∨
        ∃ k, Decision.Allow = .Error k) :=
  ⟨(c9_fault_containment ⟨[("a", "b")], [("K", "V")], 7⟩
      rejectLowConfidenceBlob ⟨700, []⟩ ⟨10, 64, 1000⟩).1,
   (c9_fault_containment ⟨[("a", "b")], [("K", "V")], 7⟩
      rejectLowConfidenceBlob ⟨700, []⟩ ⟨10, 64, 1000⟩).2.1 .Allow (by rfl)⟩

/-- C10: for an uncached content hash, a group of concurrent
`get_or_load` callers — serialized in any order by the per-key
single-flight coordination — performs exactly one underlying load, and
every caller receives the same resulting module or the same load
failure; moreover loading the same byte content twice yields policy
modules with identical content hash. -/
theorem c10_cache_single_flight (st : CacheState) (h : Nat)
    (loader : Except LoadError PolicyModule) (n : Nat)
    (hmiss : st.lookup h = none) :
    (runCallers h loader (n + 1) st).2.loadsPerformed =
      st.loadsPerformed + 1 ∧
      (∀ r ∈ (runCallers h loader (n + 1) st).1, r = loader) ∧
      ∀ (b : Blob) (pm pm' : PolicyModule),
        load b = .ok pm → load b = .ok pm' → pm.hash = pm'.hash := by
  have hg : get_or_load st h loader =
      (loader, ⟨(h, loader) :: st.entries, st.loadsPerformed + 1⟩) := by
    simp [get_or_load, hmiss]
  have hrest := runCallers_cached h loader loader n
    ⟨(h, loader) :: st.entries, st.loadsPerformed + 1⟩
    (lookup_insert st.entries (st.loadsPerformed + 1) h loader)
  have hrun : runCallers h loader (n + 1) st =
      (loader :: List.replicate n loader,
       ⟨(h, loader) :: st.entries, st.loadsPerformed + 1⟩) := by
    simp only [runCallers, hg, hrest]
  refine ⟨by rw [hrun], ?_, ?_⟩
  · intro r hr
    rw [hrun] at hr
    rcases List.mem_cons.mp hr with h1 | h1
    · exact h1
    · exact List.eq_of_mem_replicate h1
  · intro b pm pm' h1 h2
    rw [h1] at h2
    injection h2 with h3
    rw [h3]

/-- Witness for C10: three callers racing on the empty cache for the
fixture's hash perform exactly one load and all receive the fixture's
load result. -/
theorem c10_witness :
    (runCallers 42 (load rejectLowConfidenceBlob) 3 ⟨[], 0⟩).2.loadsPerformed =
      0 + 1 ∧
      (∀ r ∈ (runCallers 42 (load rejectLowConfidenceBlob) 3 ⟨[], 0⟩).1,
        r = load rejectLowConfidenceBlob) ∧
      ∀ (b : Blob) (pm pm' : PolicyModule),
        load b = .ok pm → load b = .ok pm' → pm.hash = pm'.hash :=
  c10_cache_single_flight ⟨[], 0⟩ 42 (load rejectLowConfidenceBlob) 2 rfl
